import Mathlib

/-!
Verification of the `layer` middleware package (vinxi/vinci).

The Go sources embedded here are `layer.go` (Layer, registration, Run) and
`adapter.go` (AdaptFunc and the shape adapters).  The `Stack`/`Priority`
code referenced by `layer.go` is not part of the available sources, so it
is modelled from the spec (see `Stack.Push` / `Stack.Join` below).

Modelling conventions:
* An HTTP request/response pair is a single state `St` carrying the
  response-writer event trace and the request-scoped context store
  (`gopkg.in/vinxi/context`).
* `http.Handler` becomes `HttpHandler := St → Result`, where `Result`
  distinguishes normal completion from an unhandled Go panic carrying a
  panic value; a panicking handler also returns the state mutated so far.
* Go maps are association lists with insert-by-shadowing, so
  `mapLookup (mapInsert m k v) k = some v` and a map read of an absent key
  yields the zero value, mirrored through `Option`.
* `interface{}` handler arguments become the inductive `GoValue`: the six
  shapes probed by `AdaptFunc`, an unsupported remainder, and the
  `Registrable` capability whose `Register` body is modelled as a list of
  registrations it performs through the layer it receives.
-/

namespace Vinxi

/-- One observable event on the response writer: a status-line write, a body
write, or a marker emitted by an instrumented test handler. -/
inductive Event where
  | wroteHeader (code : Nat)
  | wrote (body : String)
  | mark (label : String)
deriving DecidableEq, Repr

/-- The request/response state: the ordered response trace and the
request-scoped context store (written by `context.Set`). -/
structure St where
  resp : List Event
  ctx : List (String × String)
deriving DecidableEq, Repr

/-- Outcome of running a handler: normal completion, or an unhandled Go
panic with its panic value, in both cases with the state reached. -/
inductive Result where
  | ok (s : St)
  | panicked (v : String) (s : St)
deriving DecidableEq, Repr

/-- `http.Handler` / `http.HandlerFunc`: consumes the request/response state. -/
abbrev HttpHandler := St → Result

/-- `MiddlewareFunc`: `func(http.Handler) http.Handler`, the canonical
normalized-handler form (adapter.go). -/
abbrev MiddlewareFunc := HttpHandler → HttpHandler

/-- `HandlerFuncNext`: `func(w http.ResponseWriter, r *http.Request, h http.Handler)`
(adapter.go), with `w`/`r` merged into `St`. -/
abbrev HandlerFuncNext := St → HttpHandler → Result

/-- `context.Set(r, key, value)`: prepend-shadowing write into the
request-scoped store. -/
def contextSet (s : St) (k v : String) : St :=
  { s with ctx := (k, v) :: s.ctx }

/-- First-match lookup in an association list; models a Go map read
(`m[k]` together with its `ok` flag via `Option`). -/
def mapLookup {α : Type} : List (String × α) → String → Option α
  | [], _ => none
  | (k, v) :: rest, key => if k = key then some v else mapLookup rest key

/-- Go map write `m[k] = v`: shadowing insert. -/
def mapInsert {α : Type} (m : List (String × α)) (k : String) (v : α) :
    List (String × α) :=
  (k, v) :: m

theorem mapLookup_insert_self {α : Type} (m : List (String × α)) (k : String) (v : α) :
    mapLookup (mapInsert m k v) k = some v := by
  simp [mapInsert, mapLookup]

theorem mapLookup_insert_ne {α : Type} (m : List (String × α)) (k q : String) (v : α)
    (h : k ≠ q) : mapLookup (mapInsert m k v) q = mapLookup m q := by
  simp [mapInsert, mapLookup, h]

/-- The values a middleware argument of type `interface{}` can take among
the shapes `AdaptFunc` probes (adapter.go), plus everything else
(`other`).  Each constructor corresponds to exactly one Go type
assertion, in the source order of `AdaptFunc`:
1. `func(http.Handler) http.Handler`
2. `func(http.Handler) func(http.ResponseWriter, *http.Request)`
3. `func(http.ResponseWriter, *http.Request, http.Handler)`
4. `func(http.ResponseWriter, *http.Request)`
5. a value implementing `http.Handler`
6. a value implementing the package interface `Handler` (`HandleHTTP`). -/
inductive AdaptValue where
  | funcMiddleware (f : MiddlewareFunc)
  | funcMiddlewareHandlerFunc (f : HttpHandler → HttpHandler)
  | funcHandlerFuncNext (f : HandlerFuncNext)
  | funcHandlerFunc (f : HttpHandler)
  | nativeHandler (h : HttpHandler)
  | vinciHandler (f : HandlerFuncNext)
  | other (tag : String)

/-- True exactly on values matching none of the six supported shapes. -/
def AdaptValue.isUnsupported : AdaptValue → Bool
  | .other _ => true
  | _ => false

/-- `adaptHandlerFunc` (adapter.go): wrap a plain `func(w, r)`; the
downstream handler is ignored entirely. -/
def adaptHandlerFunc (fn : HttpHandler) : MiddlewareFunc :=
  fun _h => fn

/-- `adaptMiddlewareHandlerFunc` (adapter.go): the result of `fn h` is a
plain handler function, re-wrapped as a handler. -/
def adaptMiddlewareHandlerFunc (fn : HttpHandler → HttpHandler) : MiddlewareFunc :=
  fun h => fn h

/-- `adaptHandlerFuncNext` (adapter.go): close over the downstream handler
and pass it explicitly as third argument. -/
def adaptHandlerFuncNext (fn : HandlerFuncNext) : MiddlewareFunc :=
  fun h => fun s => fn s h

/-- `adaptHandler` (adapter.go): like `adaptHandlerFuncNext`, through the
value's `HandleHTTP` method. -/
def adaptHandler (fn : HandlerFuncNext) : MiddlewareFunc :=
  fun h => fun s => fn s h

/-- `adaptNativeHandler` (adapter.go): an `http.Handler` value ignores the
downstream handler. -/
def adaptNativeHandler (fn : HttpHandler) : MiddlewareFunc :=
  fun _h => fn

/-- `AdaptFunc` (adapter.go): probe the six supported shapes in source
order, first match wins; return `none` (Go `nil`) otherwise. -/
def AdaptFunc : AdaptValue → Option MiddlewareFunc
  | .funcMiddleware f => some f
  | .funcMiddlewareHandlerFunc f => some (adaptMiddlewareHandlerFunc f)
  | .funcHandlerFuncNext f => some (adaptHandlerFuncNext f)
  | .funcHandlerFunc f => some (adaptHandlerFunc f)
  | .nativeHandler h => some (adaptNativeHandler h)
  | .vinciHandler f => some (adaptHandler f)
  | .other _ => none

/-- Modelled from the spec: `Priority` is an ordinal attached at
registration; a lower value executes earlier; the `Stack` sources are not
among the available files. -/
abbrev Priority := Nat

/-- Modelled from the spec: the one documented default priority level. -/
def Normal : Priority := 1

/-- Modelled from the spec: the per-phase priority stack, holding
normalized handlers tagged with their priority in insertion order. -/
structure Stack where
  entries : List (Priority × MiddlewareFunc)

/-- Modelled from the spec: `Push` appends the handler tagged with its
priority; it never fails. -/
def Stack.Push (st : Stack) (p : Priority) (mw : MiddlewareFunc) : Stack :=
  ⟨st.entries ++ [(p, mw)]⟩

/-- Stable insertion used by `sortEntries`: the new element goes before
the first strictly-later element, after all earlier-or-equal ones. -/
def insertEntry (x : Priority × MiddlewareFunc) :
    List (Priority × MiddlewareFunc) → List (Priority × MiddlewareFunc)
  | [] => [x]
  | y :: ys => if x.1 ≤ y.1 then x :: y :: ys else y :: insertEntry x ys

/-- Stable sort of stack entries by priority (insertion sort). -/
def sortEntries (l : List (Priority × MiddlewareFunc)) :
    List (Priority × MiddlewareFunc) :=
  l.foldr insertEntry []

/-- Modelled from the spec: `Join` projects the fully ordered execution
sequence, primary key priority (lower first), secondary key insertion
order (stable). -/
def Stack.Join (st : Stack) : List MiddlewareFunc :=
  (sortEntries st.entries).map Prod.snd

/-- A middleware argument as passed to `Use`/`UsePriority`: either a value
`AdaptFunc` classifies, or a `Registrable` whose `Register` body is
modelled as the list of `(phase, priority, handler)` registrations it
performs through the layer handed to it. -/
inductive GoValue where
  | plain (v : AdaptValue)
  | registrable (regs : List (String × Priority × AdaptValue))

/-- `FinalHandler` (layer.go): default terminal, replies 502. -/
def FinalHandler : HttpHandler :=
  fun s => .ok { s with resp := s.resp ++ [.wroteHeader 502, .wrote "vinxi: cannot route request"] }

/-- `FinalErrorHandler` (layer.go): default error terminal, replies 500. -/
def FinalErrorHandler : HttpHandler :=
  fun s => .ok { s with resp := s.resp ++ [.wroteHeader 500, .wrote "vinxi: internal server error"] }

/-- `Layer` (layer.go): final handler, per-phase memo of compiled chains
(map values may be Go `nil`, hence `Option`), and the `Pool` of per-phase
stacks. -/
structure Layer where
  finalHandler : HttpHandler
  memo : List (String × Option HttpHandler)
  Pool : List (String × Stack)

/-- `New` (layer.go): empty pool, empty memo, default final handler. -/
def New : Layer :=
  { finalHandler := FinalHandler, memo := [], Pool := [] }

/-- `Layer.Flush` (layer.go): `s.Pool = Pool{}` — only the pool is reset. -/
def Layer.Flush (l : Layer) : Layer :=
  { l with Pool := [] }

/-- `Layer.UseFinalHandler` (layer.go). -/
def Layer.UseFinalHandler (l : Layer) (fn : HttpHandler) : Layer :=
  { l with finalHandler := fn }

/-- `stack.Push` performed through the layer: Go pushes through the
`*Stack` pointer fetched from the pool; with the modelled `Register`
bodies only ever registering through `use` (which mutates stacks in place
and never replaces a pool entry), re-reading the pool here is equivalent
to the captured pointer. -/
def Layer.pushInto (l : Layer) (phase : String) (p : Priority) (mw : MiddlewareFunc) : Layer :=
  { l with Pool := mapInsert l.Pool phase (((mapLookup l.Pool phase).getD ⟨[]⟩).Push p mw) }

/-- The non-`Registrable` arm of `register` (layer.go): adapt, and panic —
modelled as `Except.error` — when `AdaptFunc` returns `nil`. -/
def registerPlain (l : Layer) (phase : String) (p : Priority) (v : AdaptValue) :
    Except String Layer :=
  match AdaptFunc v with
  | none => .error "vinxi: unsupported middleware interface"
  | some mw => .ok (l.pushInto phase p mw)

/-- The head of `use` (layer.go): `s.memo[phase] = nil`, then create the
phase stack when absent. -/
def Layer.invalidateEnsure (l : Layer) (phase : String) : Layer :=
  let l1 : Layer := { l with memo := mapInsert l.memo phase none }
  match mapLookup l1.Pool phase with
  | none => { l1 with Pool := mapInsert l1.Pool phase ⟨[]⟩ }
  | some _ => l1

/-- `use` restricted to plain values: what a modelled `Register` body runs
when it calls back into the layer with ordinary handlers. -/
def usePlain (l : Layer) (phase : String) (p : Priority) (hs : List AdaptValue) :
    Except String Layer :=
  hs.foldlM (fun acc v => registerPlain acc phase p v) (l.invalidateEnsure phase)

/-- `register` (layer.go): the `Registrable` probe comes first and, on a
match, only `Register` runs — the value is neither adapted nor pushed;
otherwise adapt and push, panicking on an unsupported shape. -/
def register (l : Layer) (phase : String) (p : Priority) : GoValue → Except String Layer
  | .plain v => registerPlain l phase p v
  | .registrable regs =>
      regs.foldlM (fun acc r => usePlain acc r.1 r.2.1 [r.2.2]) l

/-- `use` (layer.go): invalidate the phase memo, ensure the phase stack,
then register every handler argument in order. -/
def Layer.use (l : Layer) (phase : String) (p : Priority) (hs : List GoValue) :
    Except String Layer :=
  hs.foldlM (fun acc h => register acc phase p h) (l.invalidateEnsure phase)

/-- `Use` (layer.go): register at the `Normal` priority. -/
def Layer.Use (l : Layer) (phase : String) (hs : List GoValue) : Except String Layer :=
  l.use phase Normal hs

/-- `UsePriority` (layer.go). -/
def Layer.UsePriority (l : Layer) (phase : String) (p : Priority) (hs : List GoValue) :
    Except String Layer :=
  l.use phase p hs

/-- The memo read `h, ok := s.memo[phase]` in `Run` (layer.go): the pair
of the value read (Go zero value `nil` when absent) and the presence flag. -/
def memoRead (memo : List (String × Option HttpHandler)) (phase : String) :
    Option HttpHandler × Bool :=
  match mapLookup memo phase with
  | some v => (v, true)
  | none => (none, false)

/-- The body of `Run` (layer.go) without the deferred panic trap:
memo check (`!ok && h != nil`), default terminal substitution, the
nil-stack short-circuit, the right-to-left chain composition, the memo
write, and the chain invocation.  Returns the updated layer and the
invocation result. -/
def runNoRecover (l : Layer) (phase : String) (h0 : Option HttpHandler) (s : St) :
    Layer × Result :=
  match memoRead l.memo phase with
  | (some hh, false) => (l, hh s)
  | _ =>
    let h := h0.getD l.finalHandler
    match mapLookup l.Pool phase with
    | none => (l, h s)
    | some stack =>
      let hh := stack.Join.foldr (fun mw acc => mw acc) h
      ({ l with memo := mapInsert l.memo phase (some hh) }, hh s)

/-- `Run` (layer.go): the body plus the deferred trap — on any phase other
than `"error"` a panic is recovered, stored in the request context under
`"error"`, and execution is re-dispatched to the `"error"` phase with
`FinalErrorHandler` as terminal (a `Run` call whose own trap is inert,
hence `runNoRecover`); on the `"error"` phase the deferred function
returns before `recover()`, so the panic propagates. -/
def Layer.Run (l : Layer) (phase : String) (s : St) (h0 : Option HttpHandler) :
    Layer × Result :=
  match runNoRecover l phase h0 s with
  | (l1, .ok s1) => (l1, .ok s1)
  | (l1, .panicked v s1) =>
    if phase = "error" then (l1, .panicked v s1)
    else runNoRecover l1 "error" (some FinalErrorHandler) (contextSet s1 "error" v)

/-- What the claim expects only on a memo miss, and what the code in fact
always does: substitute the default terminal, then compile and invoke the
chain from the phase's stack (memoizing it), or invoke the terminal alone
when the phase has no stack. -/
def runRecompute (l : Layer) (phase : String) (h0 : Option HttpHandler) (s : St) :
    Layer × Result :=
  let h := h0.getD l.finalHandler
  match mapLookup l.Pool phase with
  | none => (l, h s)
  | some stack =>
    let hh := stack.Join.foldr (fun mw acc => mw acc) h
    ({ l with memo := mapInsert l.memo phase (some hh) }, hh s)

theorem memoRead_absent_nil (memo : List (String × Option HttpHandler)) (phase : String) :
    (memoRead memo phase).2 = false → (memoRead memo phase).1 = none := by
  cases h : mapLookup memo phase <;> simp [memoRead, h]

/-- Core of the memo defect: the guard `!ok && h != nil` in `Run` is
unsatisfiable, so `runNoRecover` coincides with the recompute-always
function on every input. -/
theorem runNoRecover_eq_runRecompute (l : Layer) (phase : String)
    (h0 : Option HttpHandler) (s : St) :
    runNoRecover l phase h0 s = runRecompute l phase h0 s := by
  unfold runNoRecover runRecompute
  cases h : memoRead l.memo phase with
  | mk hv ok =>
    cases ok with
    | true => cases hv <;> rfl
    | false =>
      have : hv = none := by
        have := memoRead_absent_nil l.memo phase
        rw [h] at this
        exact this rfl
      subst this
      rfl

/-- On the `"error"` phase the deferred trap is inert, so `Run` is exactly
the untrapped body. -/
theorem run_error_eq_noRecover (l : Layer) (s : St) (h0 : Option HttpHandler) :
    l.Run "error" s h0 = runNoRecover l "error" h0 s := by
  unfold Layer.Run
  cases h : runNoRecover l "error" h0 s with
  | mk l1 r =>
    cases r with
    | ok s1 => rfl
    | panicked v s1 => simp

/-- Scenario helper: unwrap a registration known to succeed. -/
def orNew : Except String Layer → Layer
  | .ok l => l
  | .error _ => New

/-- Scenario helper: the empty request/response state. -/
def st0 : St := ⟨[], []⟩

/-- Scenario helper: a handler that immediately panics with `"boom"`. -/
def panicking : HttpHandler := fun s => .panicked "boom" s

/-- Scenario helper: append an execution marker to the response trace. -/
def pushMark (s : St) (label : String) : St :=
  { s with resp := s.resp ++ [.mark label] }

/-- Scenario helper: a cooperative continuation-style middleware that
records its label and then invokes the downstream handler. -/
def coop (label : String) : AdaptValue :=
  .funcHandlerFuncNext (fun s next => next (pushMark s label))

/-- The normalized form `AdaptFunc` assigns to `coop label`. -/
def coopMW (label : String) : MiddlewareFunc :=
  adaptHandlerFuncNext (fun s next => next (pushMark s label))

/-- Scenario helper: register one `coop` handler per label into the
`"request"` phase, in order. -/
def useCoops (l : Layer) (labels : List String) : Layer :=
  labels.foldl (fun acc lb => orNew (acc.Use "request" [.plain (coop lb)])) l

/-- The effect of `FinalHandler` on the response trace. -/
def finalTouch (s : St) : St :=
  { s with resp := s.resp ++ [.wroteHeader 502, .wrote "vinxi: cannot route request"] }

/-- Append one marker per label to the response trace. -/
def pushMarks (s : St) (labels : List String) : St :=
  { s with resp := s.resp ++ labels.map Event.mark }

/-- Claim C1: the spec says a second `Run` whose phase has a valid
memoized compiled chain must invoke that chain directly without
recompiling from the stack.  The code's guard `!ok && h != nil` is
unsatisfiable (an absent map key reads back as nil), so even when the
memo holds a compiled chain `Run` recompiles from the phase's stack:
the untrapped body always equals the recompute-from-stack function.
This contradicts the claim and the code's own comment, evidencing a code
bug (`ok && h != nil` was clearly intended). -/
theorem claim1_run_ignores_memo (l : Layer) (phase : String)
    (h0 : Option HttpHandler) (s : St)
    (_hmemo : (memoRead l.memo phase).1.isSome = true) :
    runNoRecover l phase h0 s = runRecompute l phase h0 s := by
  exact runNoRecover_eq_runRecompute l phase h0 s

/-- Scenario for C1: a layer whose `"request"` chain was compiled and
memoized by a first `Run`, with no registration since. -/
def c1layer : Layer :=
  ((useCoops New ["A"]).Run "request" st0 none).1

theorem claim1_run_ignores_memo_witness :
    (memoRead c1layer.memo "request").1.isSome = true
    ∧ runNoRecover c1layer "request" none st0 = runRecompute c1layer "request" none st0 :=
  ⟨rfl, claim1_run_ignores_memo c1layer "request" none st0 rfl⟩

/-- Claim C2: on a phase other than the error phase, an unhandled panic
anywhere in the chain is recovered once at the outer boundary of `Run`,
the recovered value is stored in the request context under `"error"`, and
`Run` is re-invoked for the `"error"` phase with `FinalErrorHandler` as
terminal. -/
theorem claim2_panic_trap_redirects (l l1 : Layer) (phase : String)
    (h0 : Option HttpHandler) (s s1 : St) (v : String)
    (hphase : phase ≠ "error")
    (hrun : runNoRecover l phase h0 s = (l1, .panicked v s1)) :
    l.Run phase s h0 = l1.Run "error" (contextSet s1 "error" v) (some FinalErrorHandler) := by
  rw [run_error_eq_noRecover]
  unfold Layer.Run
  rw [hrun]
  simp [hphase]

theorem claim2_panic_trap_redirects_witness :
    runNoRecover New "request" (some panicking) st0 = (New, .panicked "boom" st0)
    ∧ New.Run "request" st0 (some panicking)
        = New.Run "error" (contextSet st0 "error" "boom") (some FinalErrorHandler) :=
  ⟨rfl, claim2_panic_trap_redirects New New "request" (some panicking) st0 st0 "boom"
    (by decide) rfl⟩

/-- Claim C3: a `Run` call on the error phase is never wrapped by the
failure trap — an unhandled panic raised while executing the error
phase's chain (or its terminal) propagates unmodified to the caller of
`Run`, and is neither recovered nor redirected. -/
theorem claim3_error_phase_panic_propagates (l l1 : Layer)
    (h0 : Option HttpHandler) (s s1 : St) (v : String)
    (hrun : runNoRecover l "error" h0 s = (l1, .panicked v s1)) :
    l.Run "error" s h0 = (l1, .panicked v s1) := by
  rw [run_error_eq_noRecover, hrun]

theorem claim3_error_phase_panic_propagates_witness :
    New.Run "error" st0 (some panicking) = (New, .panicked "boom" st0) :=
  claim3_error_phase_panic_propagates New New (some panicking) st0 st0 "boom" rfl

/-- Claim C5: `AdaptFunc` probes the six supported handler shapes in a
fixed source order with first match winning (one match branch per Go type
assertion), yields a usable normalized handler (`some`, never nil) for
every value of one of the six shapes, and yields the explicit unsupported
signal `none` — without crashing — for every other value. -/
theorem claim5_adaptfunc_six_shapes (v : AdaptValue) :
    (AdaptFunc v).isSome = !v.isUnsupported := by
  cases v <;> rfl

/-- Claim C6: `Use` and `UsePriority` with a handler that matches none of
the supported shapes fail fatally at registration time — the Go panic
`"vinxi: unsupported middleware interface"`, modelled as `Except.error` —
rather than returning a recoverable result or dropping the handler. -/
theorem claim6_unsupported_registration_fatal (l : Layer) (phase : String)
    (p : Priority) (v : AdaptValue) (hv : AdaptFunc v = none) :
    l.Use phase [.plain v] = .error "vinxi: unsupported middleware interface"
    ∧ l.UsePriority phase p [.plain v] = .error "vinxi: unsupported middleware interface" := by
  constructor <;>
    simp [Layer.Use, Layer.UsePriority, Layer.use, List.foldlM, register, registerPlain, hv]

theorem claim6_unsupported_registration_fatal_witness :
    AdaptFunc (.other "bogus") = none
    ∧ New.Use "request" [.plain (.other "bogus")]
        = .error "vinxi: unsupported middleware interface"
    ∧ New.UsePriority "request" 7 [.plain (.other "bogus")]
        = .error "vinxi: unsupported middleware interface" :=
  ⟨rfl,
    (claim6_unsupported_registration_fatal New "request" 7 (.other "bogus") rfl).1,
    (claim6_unsupported_registration_fatal New "request" 7 (.other "bogus") rfl).2⟩

/-- Claim C9: `Run` on a phase with no priority stack invokes exactly one
handler — the supplied terminal, or the layer's final handler when none
is supplied — and no other handler executes; the layer is unchanged. -/
theorem claim9_no_stack_terminal_only (l : Layer) (phase : String)
    (h0 : Option HttpHandler) (s sr : St)
    (hpool : mapLookup l.Pool phase = none) :
    runNoRecover l phase h0 s = (l, (h0.getD l.finalHandler) s)
    ∧ ((h0.getD l.finalHandler) s = .ok sr → l.Run phase s h0 = (l, .ok sr)) := by
  have hbody : runNoRecover l phase h0 s = (l, (h0.getD l.finalHandler) s) := by
    rw [runNoRecover_eq_runRecompute]
    unfold runRecompute
    rw [hpool]
  refine ⟨hbody, fun hok => ?_⟩
  unfold Layer.Run
  rw [hbody, hok]

theorem claim9_no_stack_terminal_only_witness :
    mapLookup New.Pool "request" = none
    ∧ runNoRecover New "request" none st0 = (New, FinalHandler st0)
    ∧ New.Run "request" st0 none = (New, .ok (finalTouch st0)) :=
  ⟨rfl,
    (claim9_no_stack_terminal_only New "request" none st0 (finalTouch st0) rfl).1,
    (claim9_no_stack_terminal_only New "request" none st0 (finalTouch st0) rfl).2 rfl⟩

/-- Claim C4: on a phase whose stack is present and whose ordered
sequence from `Join` is non-empty, `Run` composes the chain right-to-left
around the terminal: processed from last to first, each normalized
handler wraps the accumulated handler (a `foldr`), so the first handler
of the sequence is the outermost of the single composed chain and runs
first; the chain is memoized and then invoked. -/
theorem claim4_chain_composed_foldr (l : Layer) (phase : String)
    (h0 : Option HttpHandler) (s : St) (stack : Stack)
    (m : MiddlewareFunc) (ms : List MiddlewareFunc)
    (hpool : mapLookup l.Pool phase = some stack)
    (hjoin : stack.Join = m :: ms) :
    runNoRecover l phase h0 s =
      ({ l with memo := (mapInsert l.memo phase
          (some (m (ms.foldr (fun mw acc => mw acc) (h0.getD l.finalHandler))))) },
        m (ms.foldr (fun mw acc => mw acc) (h0.getD l.finalHandler)) s) := by
  rw [runNoRecover_eq_runRecompute]
  unfold runRecompute
  rw [hpool]
  simp [hjoin]

/-- Scenario for C4: one cooperative handler registered in `"request"`. -/
def c4layer : Layer := orNew (New.Use "request" [.plain (coop "A")])

/-- The `"request"` stack of `c4layer`. -/
def c4stack : Stack := ⟨[(Normal, coopMW "A")]⟩

theorem claim4_chain_composed_foldr_witness :
    mapLookup c4layer.Pool "request" = some c4stack
    ∧ c4stack.Join = [coopMW "A"]
    ∧ runNoRecover c4layer "request" none st0 =
        ({ c4layer with memo := (mapInsert c4layer.memo "request"
            (some (coopMW "A" FinalHandler))) },
          coopMW "A" FinalHandler st0) :=
  ⟨rfl, rfl,
    claim4_chain_composed_foldr c4layer "request" none st0 c4stack (coopMW "A") [] rfl rfl⟩

/-- The stack entries produced by registering `coop` handlers at the
default priority, in order. -/
def entriesOf (labels : List String) : List (Priority × MiddlewareFunc) :=
  labels.map (fun lb => (Normal, coopMW lb))

theorem sortEntries_const (es : List (Priority × MiddlewareFunc)) (p : Priority)
    (h : ∀ e ∈ es, e.1 = p) : sortEntries es = es := by
  induction es with
  | nil => rfl
  | cons x xs ih =>
    have hx : x.1 = p := h x (by simp)
    have hxs : ∀ e ∈ xs, e.1 = p := fun e he => h e (by simp [he])
    show insertEntry x (sortEntries xs) = x :: xs
    rw [ih hxs]
    cases xs with
    | nil => rfl
    | cons y ys =>
      have hy : y.1 = p := hxs y (by simp)
      simp [insertEntry, hx, hy]

theorem entriesOf_all_normal (labels : List String) :
    ∀ e ∈ entriesOf labels, e.1 = Normal := by
  intro e he
  simp only [entriesOf, List.mem_map] at he
  obtain ⟨lb, _, rfl⟩ := he
  rfl

theorem join_entriesOf (labels : List String) :
    (Stack.mk (entriesOf labels)).Join = labels.map coopMW := by
  show (sortEntries (entriesOf labels)).map Prod.snd = labels.map coopMW
  rw [sortEntries_const _ Normal (entriesOf_all_normal labels)]
  simp [entriesOf]

theorem chain_coops (L : List String) (h : HttpHandler) (s : St) :
    (L.map coopMW).foldr (fun mw acc => mw acc) h s = h (pushMarks s L) := by
  induction L generalizing s with
  | nil =>
    have hs : pushMarks s [] = s := by simp [pushMarks]
    rw [hs]
    rfl
  | cons a L ih =>
    show ((L.map coopMW).foldr (fun mw acc => mw acc) h) (pushMark s a)
        = h (pushMarks s (a :: L))
    rw [ih]
    have : pushMarks (pushMark s a) L = pushMarks s (a :: L) := by
      simp [pushMarks, pushMark]
    rw [this]

theorem use_plain_some_absent (l : Layer) (phase : String) (p : Priority)
    (v : AdaptValue) (mw : MiddlewareFunc)
    (hv : AdaptFunc v = some mw) (hp : mapLookup l.Pool phase = none) :
    l.use phase p [.plain v] =
      .ok { finalHandler := l.finalHandler
            memo := (mapInsert l.memo phase none)
            Pool := (mapInsert (mapInsert l.Pool phase ⟨[]⟩) phase ⟨[(p, mw)]⟩) } := by
  unfold Layer.use Layer.invalidateEnsure
  simp [hp, List.foldlM, register, registerPlain, hv, Layer.pushInto,
    mapLookup_insert_self, Stack.Push]

theorem use_plain_some_present (l : Layer) (phase : String) (p : Priority)
    (v : AdaptValue) (mw : MiddlewareFunc) (st : Stack)
    (hv : AdaptFunc v = some mw) (hp : mapLookup l.Pool phase = some st) :
    l.use phase p [.plain v] =
      .ok { l with memo := (mapInsert l.memo phase none)
                   Pool := (mapInsert l.Pool phase ⟨st.entries ++ [(p, mw)]⟩) } := by
  unfold Layer.use Layer.invalidateEnsure
  simp [hp, List.foldlM, register, registerPlain, hv, Layer.pushInto, Stack.Push]

theorem useCoops_inv (labels : List String) :
    ∀ (l : Layer) (es : List (Priority × MiddlewareFunc)),
    mapLookup l.Pool "request" = some ⟨es⟩ →
    mapLookup (useCoops l labels).Pool "request" = some ⟨es ++ entriesOf labels⟩
    ∧ (useCoops l labels).finalHandler = l.finalHandler := by
  induction labels with
  | nil =>
    intro l es hp
    refine ⟨?_, rfl⟩
    simpa [useCoops, entriesOf] using hp
  | cons lb rest ih =>
    intro l es hp
    have hstep := use_plain_some_present l "request" Normal (coop lb) (coopMW lb) ⟨es⟩ rfl hp
    have hL : useCoops l (lb :: rest)
        = useCoops (orNew (l.Use "request" [.plain (coop lb)])) rest := rfl
    rw [hL]
    have hUse : l.Use "request" [.plain (coop lb)] = l.use "request" Normal [.plain (coop lb)] := rfl
    rw [hUse, hstep]
    dsimp only [orNew]
    have hnext := ih
      { l with memo := (mapInsert l.memo "request" none)
               Pool := (mapInsert l.Pool "request" ⟨es ++ [(Normal, coopMW lb)]⟩) }
      (es ++ [(Normal, coopMW lb)]) (by simp [mapLookup_insert_self])
    refine ⟨?_, hnext.2⟩
    rw [hnext.1]
    simp [entriesOf]

theorem useCoops_new_cons (lb : String) (rest : List String) :
    mapLookup (useCoops New (lb :: rest)).Pool "request" = some ⟨entriesOf (lb :: rest)⟩
    ∧ (useCoops New (lb :: rest)).finalHandler = FinalHandler := by
  have hstep := use_plain_some_absent New "request" Normal (coop lb) (coopMW lb) rfl rfl
  have hL : useCoops New (lb :: rest)
      = useCoops (orNew (New.Use "request" [.plain (coop lb)])) rest := rfl
  rw [hL]
  have hUse : New.Use "request" [.plain (coop lb)]
      = New.use "request" Normal [.plain (coop lb)] := rfl
  rw [hUse, hstep]
  dsimp only [orNew]
  have hnext := useCoops_inv rest
    { finalHandler := New.finalHandler
      memo := (mapInsert New.memo "request" none)
      Pool := (mapInsert (mapInsert New.Pool "request" ⟨[]⟩) "request" ⟨[(Normal, coopMW lb)]⟩) }
    [(Normal, coopMW lb)] (by simp [mapLookup_insert_self])
  refine ⟨?_, hnext.2⟩
  rw [hnext.1]
  simp [entriesOf]

/-- The compiled chain `Run` produces for a stack of cooperative markers. -/
def coopChain (L : List String) : HttpHandler :=
  (L.map coopMW).foldr (fun mw acc => mw acc) FinalHandler

theorem run_coops (l : Layer) (L : List String) (s : St)
    (hfh : l.finalHandler = FinalHandler)
    (hp : mapLookup l.Pool "request" = some ⟨entriesOf L⟩) :
    l.Run "request" s none =
      ({ l with memo := (mapInsert l.memo "request" (some (coopChain L))) },
        .ok (finalTouch (pushMarks s L))) := by
  have hbody : runNoRecover l "request" none s =
      ({ l with memo := (mapInsert l.memo "request" (some (coopChain L))) },
        coopChain L s) := by
    rw [runNoRecover_eq_runRecompute]
    unfold runRecompute
    rw [hp]
    simp only [Option.getD, hfh]
    have hj : (Stack.mk (entriesOf L)).Join = L.map coopMW := join_entriesOf L
    simp [hj, coopChain]
  have hval : coopChain L s = .ok (finalTouch (pushMarks s L)) := by
    unfold coopChain
    rw [chain_coops]
    rfl
  unfold Layer.Run
  rw [hbody, hval]

/-- Scenario for C7: the layer left by a first `Run` on `"request"` after
registering one cooperative handler per label. -/
def c7pre (labels : List String) (s : St) : Layer :=
  ((useCoops New labels).Run "request" s none).1

/-- Scenario for C7: the previous layer after registering one more
cooperative handler into `"request"`. -/
def c7post (labels : List String) (lb : String) (s : St) : Layer :=
  orNew ((c7pre labels s).Use "request" [.plain (coop lb)])

/-- Claim C7: every registration into a phase invalidates that phase's
cached compiled chain (the memo entry is overwritten with nil), and after
a prior `Run` on `"request"` the next `Run` executes a chain that
includes the newly registered handler's effect (its marker appears,
in order), while the `Run` performed before the registration executed the
chain without it. -/
theorem claim7_registration_invalidates_memo (labels : List String) (lb : String) (s : St) :
    mapLookup (c7post labels lb s).memo "request" = some none
    ∧ ((useCoops New labels).Run "request" s none).2 = .ok (finalTouch (pushMarks s labels))
    ∧ ((c7post labels lb s).Run "request" s none).2
        = .ok (finalTouch (pushMarks s (labels ++ [lb]))) := by
  cases labels with
  | nil =>
    have h0 : useCoops New [] = New := rfl
    have hb : runNoRecover New "request" none s = (New, FinalHandler s) := by
      rw [runNoRecover_eq_runRecompute]
      rfl
    have hv : FinalHandler s = .ok (finalTouch s) := rfl
    have hrunNew : New.Run "request" s none = (New, .ok (finalTouch s)) := by
      unfold Layer.Run
      rw [hb, hv]
    have hpre : c7pre [] s = New := by
      unfold c7pre
      rw [h0, hrunNew]
    have hstep := use_plain_some_absent New "request" Normal (coop lb) (coopMW lb) rfl rfl
    have hUse : New.Use "request" [.plain (coop lb)]
        = New.use "request" Normal [.plain (coop lb)] := rfl
    have hpost : c7post [] lb s =
        { finalHandler := New.finalHandler
          memo := (mapInsert New.memo "request" none)
          Pool := (mapInsert (mapInsert New.Pool "request" ⟨[]⟩) "request"
            ⟨[(Normal, coopMW lb)]⟩) } := by
      unfold c7post
      rw [hpre, hUse, hstep]
      rfl
    refine ⟨?_, ?_, ?_⟩
    · rw [hpost]
      simp [mapLookup_insert_self]
    · rw [h0, hrunNew]
      simp [pushMarks]
    · have hrun2 := run_coops (c7post [] lb s) [lb] s
        (by rw [hpost]; rfl) (by rw [hpost]; simp [mapLookup_insert_self, entriesOf])
      rw [hrun2]
      simp
  | cons lb0 rest =>
    obtain ⟨hp0, hfh0⟩ := useCoops_new_cons lb0 rest
    have hrun0 := run_coops (useCoops New (lb0 :: rest)) (lb0 :: rest) s hfh0 hp0
    have hpre : c7pre (lb0 :: rest) s =
        { useCoops New (lb0 :: rest) with
          memo := (mapInsert (useCoops New (lb0 :: rest)).memo "request"
            (some (coopChain (lb0 :: rest)))) } := by
      unfold c7pre
      rw [hrun0]
    have hstep := use_plain_some_present (c7pre (lb0 :: rest) s) "request" Normal
      (coop lb) (coopMW lb) ⟨entriesOf (lb0 :: rest)⟩ rfl (by rw [hpre]; exact hp0)
    have hUse : (c7pre (lb0 :: rest) s).Use "request" [.plain (coop lb)]
        = (c7pre (lb0 :: rest) s).use "request" Normal [.plain (coop lb)] := rfl
    have hpost : c7post (lb0 :: rest) lb s =
        { c7pre (lb0 :: rest) s with
          memo := (mapInsert (c7pre (lb0 :: rest) s).memo "request" none)
          Pool := (mapInsert (c7pre (lb0 :: rest) s).Pool "request"
            ⟨entriesOf (lb0 :: rest) ++ [(Normal, coopMW lb)]⟩) } := by
      unfold c7post
      rw [hUse, hstep]
      rfl
    refine ⟨?_, ?_, ?_⟩
    · rw [hpost]
      simp [mapLookup_insert_self]
    · rw [hrun0]
    · have hrun2 := run_coops (c7post (lb0 :: rest) lb s) ((lb0 :: rest) ++ [lb]) s
        (by rw [hpost, hpre]; exact hfh0)
        (by rw [hpost]; simp [mapLookup_insert_self, entriesOf])
      rw [hrun2]

/-- The result of `Run` on a layer whose pool is empty: the terminal (or
final handler) runs; a panic on a non-error phase is redirected to the
error phase, which — being empty too — runs `FinalErrorHandler`. -/
def runEmpty (fh : HttpHandler) (phase : String) (h0 : Option HttpHandler) (s : St) : Result :=
  match (h0.getD fh) s with
  | .ok s1 => .ok s1
  | .panicked v s1 =>
    if phase = "error" then .panicked v s1
    else FinalErrorHandler (contextSet s1 "error" v)

theorem run_pool_empty (l : Layer) (phase : String) (h0 : Option HttpHandler) (s : St)
    (hp : l.Pool = []) :
    l.Run phase s h0 = (l, runEmpty l.finalHandler phase h0 s) := by
  have hb : runNoRecover l phase h0 s = (l, (h0.getD l.finalHandler) s) := by
    rw [runNoRecover_eq_runRecompute]
    unfold runRecompute
    rw [hp]
    rfl
  cases hres : (h0.getD l.finalHandler) s with
  | ok s1 =>
    unfold Layer.Run runEmpty
    rw [hb, hres]
  | panicked v s1 =>
    unfold Layer.Run runEmpty
    rw [hb, hres]
    by_cases hph : phase = "error"
    · simp [hph]
    · simp only [hph, if_false]
      rw [runNoRecover_eq_runRecompute]
      unfold runRecompute
      rw [hp]
      rfl

/-- Counterexample to claim C8: after registering a handler in
`"request"` and running it once (which memoizes the compiled chain),
`Flush` leaves the memoized compiled-chain entry for `"request"` in
place — the claim says `Flush` clears every memoized entry. -/
theorem claim8_flush_counterexample :
    ((mapLookup (((useCoops New ["A"]).Run "request" st0 none).1.Flush).memo
      "request").getD none).isSome = true := rfl

/-- Claim C8 as amended: `Flush` discards the entire pool and leaves the
rest of the layer — the configured final handler and also the memo map,
which is not cleared — unchanged; since the memo guard never fires, a
subsequent `Run` on any previously populated phase still behaves
identically to `Run` on a freshly constructed layer carrying the same
final handler and no registrations. -/
theorem claim8_flush_resets_pool_only (l : Layer) (phase : String) (s : St)
    (h0 : Option HttpHandler) :
    (l.Flush).Pool = [] ∧ (l.Flush).finalHandler = l.finalHandler
    ∧ (l.Flush).memo = l.memo
    ∧ ((l.Flush).Run phase s h0).2 = ((New.UseFinalHandler l.finalHandler).Run phase s h0).2 := by
  refine ⟨rfl, rfl, rfl, ?_⟩
  rw [run_pool_empty (l.Flush) phase h0 s rfl,
    run_pool_empty (New.UseFinalHandler l.finalHandler) phase h0 s rfl]
  rfl

/-- The entries of a phase's stack, the empty stack when absent. -/
def phaseEntries (l : Layer) (phase : String) : List (Priority × MiddlewareFunc) :=
  ((mapLookup l.Pool phase).getD ⟨[]⟩).entries

theorem phaseEntries_invalidateEnsure (l : Layer) (phase : String) :
    phaseEntries (l.invalidateEnsure phase) phase = phaseEntries l phase := by
  unfold Layer.invalidateEnsure phaseEntries
  cases hp : mapLookup l.Pool phase with
  | none => simp [hp, mapLookup_insert_self]
  | some st => simp [hp]

theorem phaseEntries_invalidateEnsure_ne (l : Layer) (q phase : String) (h : q ≠ phase) :
    phaseEntries (l.invalidateEnsure q) phase = phaseEntries l phase := by
  unfold Layer.invalidateEnsure phaseEntries
  cases hp : mapLookup l.Pool q with
  | none => simp [hp, mapLookup_insert_ne _ _ _ _ h]
  | some st => simp [hp]

theorem phaseEntries_pushInto_ne (l : Layer) (q phase : String) (p : Priority)
    (mw : MiddlewareFunc) (h : q ≠ phase) :
    phaseEntries (l.pushInto q p mw) phase = phaseEntries l phase := by
  unfold Layer.pushInto phaseEntries
  simp [mapLookup_insert_ne _ _ _ _ h]

theorem phaseEntries_registerPlain_ne (l lr : Layer) (q phase : String) (p : Priority)
    (v : AdaptValue) (h : q ≠ phase) (hok : registerPlain l q p v = .ok lr) :
    phaseEntries lr phase = phaseEntries l phase := by
  unfold registerPlain at hok
  cases hv : AdaptFunc v with
  | none => rw [hv] at hok; exact absurd hok (by simp)
  | some mw =>
    rw [hv] at hok
    have : l.pushInto q p mw = lr := by injection hok
    rw [← this]
    exact phaseEntries_pushInto_ne l q phase p mw h

theorem phaseEntries_foldl_registerPlain (vs : List AdaptValue) :
    ∀ (acc lr : Layer) (q phase : String) (p : Priority), q ≠ phase →
    vs.foldlM (fun a v => registerPlain a q p v) acc = .ok lr →
    phaseEntries lr phase = phaseEntries acc phase := by
  induction vs with
  | nil =>
    intro acc lr q phase p _ hok
    have : acc = lr := by
      simp only [List.foldlM] at hok
      injection hok
    rw [this]
  | cons v vs ih =>
    intro acc lr q phase p hne hok
    simp only [List.foldlM] at hok
    cases hv : registerPlain acc q p v with
    | error e => rw [hv] at hok; simp [Bind.bind, Except.bind] at hok
    | ok a2 =>
      rw [hv] at hok
      simp only [Bind.bind, Except.bind] at hok
      have h2 := ih a2 lr q phase p hne hok
      rw [h2]
      exact phaseEntries_registerPlain_ne acc a2 q phase p v hne hv

theorem phaseEntries_usePlain_ne (l lr : Layer) (q phase : String) (p : Priority)
    (vs : List AdaptValue) (h : q ≠ phase) (hok : usePlain l q p vs = .ok lr) :
    phaseEntries lr phase = phaseEntries l phase := by
  unfold usePlain at hok
  have h2 := phaseEntries_foldl_registerPlain vs (l.invalidateEnsure q) lr q phase p h hok
  rw [h2]
  exact phaseEntries_invalidateEnsure_ne l q phase h

theorem phaseEntries_regsFold (regs : List (String × Priority × AdaptValue)) :
    ∀ (acc lr : Layer) (phase : String), (∀ r ∈ regs, r.1 ≠ phase) →
    regs.foldlM (fun a r => usePlain a r.1 r.2.1 [r.2.2]) acc = .ok lr →
    phaseEntries lr phase = phaseEntries acc phase := by
  induction regs with
  | nil =>
    intro acc lr phase _ hok
    have : acc = lr := by
      simp only [List.foldlM] at hok
      injection hok
    rw [this]
  | cons r regs ih =>
    intro acc lr phase hne hok
    simp only [List.foldlM] at hok
    cases hr : usePlain acc r.1 r.2.1 [r.2.2] with
    | error e => rw [hr] at hok; simp [Bind.bind, Except.bind] at hok
    | ok a2 =>
      rw [hr] at hok
      simp only [Bind.bind, Except.bind] at hok
      have h2 := ih a2 lr phase (fun x hx => hne x (by simp [hx])) hok
      rw [h2]
      exact phaseEntries_usePlain_ne acc a2 r.1 phase r.2.1 [r.2.2] (hne r (by simp)) hr

/-- Counterexample to claim C10: a `Registrable` whose `Register` body
registers a handler into the very phase it is being registered into does
not leave that phase's stack empty — the stack gains the entry pushed by
the `Register` callback. -/
theorem claim10_registrable_counterexample :
    (phaseEntries (orNew (New.Use "request"
      [.registrable [("request", Normal, coop "A")]])) "request").length = 1 := rfl

/-- Claim C10 as amended: a handler implementing `Registrable` is never
run through the adapter and never pushed into the phase's stack — only
its `Register` method runs, once, against the layer itself — so the named
phase's stack gains entries only through registrations the `Register`
body itself performs; whenever that body registers nothing into the named
phase, the phase's stack is left with exactly the entries it had before
(in particular empty if it had none). -/
theorem claim10_registrable_not_pushed (l lr : Layer) (phase : String) (p : Priority)
    (regs : List (String × Priority × AdaptValue))
    (hne : ∀ r ∈ regs, r.1 ≠ phase)
    (hok : l.use phase p [.registrable regs] = .ok lr) :
    phaseEntries lr phase = phaseEntries l phase := by
  unfold Layer.use at hok
  simp only [List.foldlM] at hok
  cases hreg : register (l.invalidateEnsure phase) phase p (.registrable regs) with
  | error e => rw [hreg] at hok; simp [Bind.bind, Except.bind] at hok
  | ok l2 =>
    rw [hreg] at hok
    simp only [Bind.bind, Except.bind] at hok
    have hl2 : l2 = lr := by injection hok
    unfold register at hreg
    have h1 := phaseEntries_regsFold regs (l.invalidateEnsure phase) l2 phase hne hreg
    rw [← hl2, h1]
    exact phaseEntries_invalidateEnsure l phase

/-- Scenario for C10: a `Registrable` registering only into a different
phase, registered into `"request"`. -/
def c10w : Layer :=
  orNew (New.use "request" Normal [.registrable [("other", Normal, coop "B")]])

theorem claim10_registrable_not_pushed_witness :
    phaseEntries c10w "request" = phaseEntries New "request" :=
  claim10_registrable_not_pushed New c10w "request" Normal
    [("other", Normal, coop "B")]
    (by
      intro r hr
      rw [List.mem_singleton] at hr
      subst hr
      decide)
    rfl

end Vinxi
